import Mathlib

/-!
Verification of the figma-mcp command bridge: the in-memory command queue,
the HTTP relay routes, and the polling executor's dedup/dispatch discipline.

The definitions below are shallow embeddings of the TypeScript/JavaScript
source: the queue and relay from the command bridge server module, and the
executor (Figma plugin) poll loop with its `executingCommands` in-flight set
and 5-second eviction timers.  JS `Date.now()` and `Math.random()` outputs
are passed in explicitly as oracle arguments; JSON values are modelled by
the inductive `Val`; JSON.parse is an abstract parameter of the relay route
handler.  JS truthiness of the `error` argument (`error ? 'failed' :
'completed'`, under which both `undefined` and the empty string are falsy)
is modelled by `errTruthy`.
-/

namespace FigmaBridge

/-- JSON-ish value type: command params, results and report payloads. -/
inductive Val where
  | nullV : Val
  | boolV : Bool → Val
  | num : Int → Val
  | str : String → Val
  | arr : List Val → Val
  | obj : List (String × Val) → Val

/-- Command lifecycle status (`'pending' | 'executing' | 'completed' | 'failed'`). -/
inductive Status where
  | pending
  | executing
  | completed
  | failed
deriving DecidableEq

/-- A stored command.  The TS interface declares `type` as a required string
field; at the JS runtime a spec object may lack it, so it is `Option String`
here (`none` = the field is `undefined`). -/
structure DesignCommand where
  id : String
  type : Option String
  params : Val
  status : Status
  result : Option Val
  error : Option String
  createdAt : Nat
  completedAt : Option Nat

/-- The enqueue argument: `Omit<DesignCommand, 'id' | 'status' | 'createdAt'>`. -/
structure CommandSpec where
  type : Option String
  params : Val

/-- The in-memory queue singleton: ordered command list plus batch file key. -/
structure CommandQueue where
  commands : List DesignCommand
  fileKey : Option String

/-- `id: cmd_${Date.now()}_${Math.random().toString(36).substr(2, 9)}`;
`now` and `rand` stand for the two oracle reads. -/
def mkId (now : Nat) (rand : String) : String :=
  "cmd_" ++ Nat.repr now ++ "_" ++ rand

/-- `queueCommand`: build the command record from the spec, assign id,
`status = pending`, `createdAt = now`, and append to the queue. -/
def queueCommand (q : CommandQueue) (spec : CommandSpec) (now : Nat)
    (rand : String) : DesignCommand × CommandQueue :=
  let cmd : DesignCommand :=
    { id := mkId now rand
      type := spec.type
      params := spec.params
      status := Status.pending
      result := none
      error := none
      createdAt := now
      completedAt := none }
  (cmd, { q with commands := q.commands ++ [cmd] })

/-- Helper for `queueBatch`: enqueue each spec in order, threading the queue,
each call consuming its own `(now, rand)` oracle pair. -/
def queueBatchGo : CommandQueue → List (CommandSpec × Nat × String) →
    List DesignCommand × CommandQueue
  | q, [] => ([], q)
  | q, (spec, now, rand) :: rest =>
    let r1 := queueCommand q spec now rand
    let r2 := queueBatchGo r1.2 rest
    (r1.1 :: r2.1, r2.2)

/-- `queueBatch`: record the file key, then `commands.map(cmd => queueCommand(cmd))`. -/
def queueBatch (q : CommandQueue) (fileKey : String)
    (items : List (CommandSpec × Nat × String)) :
    List DesignCommand × CommandQueue :=
  queueBatchGo { q with fileKey := some fileKey } items

/-- `getPendingCommands`: `queue.commands.filter(c => c.status === 'pending')`. -/
def getPendingCommands (q : CommandQueue) : List DesignCommand :=
  q.commands.filter (fun c => c.status == Status.pending)

/-- JS truthiness of the optional `error` string: `undefined` and `""` are falsy. -/
def errTruthy : Option String → Bool
  | none => false
  | some s => !(s == "")

/-- Replace the first element satisfying `p` (the object `Array.prototype.find`
returns, mutated in place). -/
def updateFirst (p : α → Bool) (f : α → α) : List α → List α
  | [] => []
  | x :: xs => if p x then f x :: xs else x :: updateFirst p f xs

/-- `completeCommand`: find the command by id; if absent return `false`;
otherwise set `status = error ? 'failed' : 'completed'`, overwrite `result`,
`error` and `completedAt`, and return `true`. -/
def completeCommand (q : CommandQueue) (id : String) (result : Option Val)
    (error : Option String) (now : Nat) : Bool × CommandQueue :=
  if q.commands.any (fun c => c.id == id) then
    (true,
      { q with
          commands :=
            updateFirst (fun c => c.id == id)
              (fun c =>
                { c with
                    status := if errTruthy error then Status.failed else Status.completed
                    result := result
                    error := error
                    completedAt := some now })
              q.commands })
  else (false, q)

/-- `clearCommands`: drop every command and reset the file key. -/
def clearCommands (_q : CommandQueue) : CommandQueue :=
  { commands := [], fileKey := none }

/-- The relay's routed requests (method + path), after URL matching. -/
inductive Req where
  | getCommands
  | getAll
  | postComplete (id : String) (rawBody : String)
  | deleteCmds
  | health
  | corsPreflight
  | unmatched
deriving DecidableEq

/-- Relay response bodies. -/
inductive Resp where
  | pendingList (fileKey : Option String) (cmds : List DesignCommand)
  | allDump (q : CommandQueue)
  | successFlag (success : Bool)
  | invalidJson
  | healthInfo (pendingCount totalCount : Nat)
  | emptyBody
  | notFoundErr

/-- The relay's request handler.  `parseBody` abstracts `JSON.parse` followed
by reading `data.result` / `data.error` (`none` = the parse throws); an empty
body is replaced by `{}` before parsing (`body ? JSON.parse(body) : {}`).
Returns `((http status, body), new queue state)`. -/
def handleRequest (parseBody : String → Option (Option Val × Option String))
    (now : Nat) : Req → CommandQueue → (Nat × Resp) × CommandQueue
  | Req.corsPreflight, q => ((200, Resp.emptyBody), q)
  | Req.getCommands, q => ((200, Resp.pendingList q.fileKey (getPendingCommands q)), q)
  | Req.getAll, q => ((200, Resp.allDump q), q)
  | Req.postComplete id raw, q =>
    match (if raw = "" then some (none, none) else parseBody raw) with
    | none => ((400, Resp.invalidJson), q)
    | some d =>
      let r := completeCommand q id d.1 d.2 now
      ((if r.1 then 200 else 404, Resp.successFlag r.1), r.2)
  | Req.deleteCmds, q => ((200, Resp.successFlag true), clearCommands q)
  | Req.health, q =>
    ((200, Resp.healthInfo (getPendingCommands q).length q.commands.length), q)
  | Req.unmatched, q => ((404, Resp.notFoundErr), q)

/-! ## The polling executor (Figma plugin poll loop)

Embeds the plugin's `handlers` table, its `batch` handler, and `pollCommands`
with the `executingCommands` in-flight set and the 5000 ms eviction timers
(`setTimeout(() => executingCommands.delete(cmd.id), 5000)` scheduled in the
`finally` block after the completion report). -/

/-- A command as the executor sees it: `{type, params}`, where `batch` carries
`params.commands`, a list of nested `{type, params}` objects. -/
inductive CmdBody where
  | prim (ty : String) (params : Val)
  | batch (subs : List CmdBody)

/-- A top-level polled command (`{id, type, params}`). -/
structure PolledCmd where
  id : String
  body : CmdBody

/-- The handler table for the non-`batch` entries: `handlers[ty]`, where a
handler either returns a result or throws an error message. -/
def HandlerTable : Type :=
  String → Option (Val → Except String Val)

/-- `handlers[cmd.type]` is defined: true for `batch` itself and for any type
in the table.  Sub-commands failing this test are skipped by the batch loop. -/
def subHasHandler (tbl : HandlerTable) : CmdBody → Bool
  | CmdBody.prim ty _ => (tbl ty).isSome
  | CmdBody.batch _ => true

/-- The `type` string of a sub-command. -/
def subType : CmdBody → String
  | CmdBody.prim _ty _ => _ty
  | CmdBody.batch _ => "batch"

mutual
/-- Run one command against the handler table: a missing handler throws
`Unknown command type: <type>` (the top-level poll loop's throw), and the
`batch` handler returns `{ batchResults: [...] }` built by `runBatchList`. -/
def runOne (tbl : HandlerTable) : CmdBody → Except String Val
  | CmdBody.prim ty p =>
    match tbl ty with
    | some h => h p
    | none => Except.error ("Unknown command type: " ++ ty)
  | CmdBody.batch subs =>
    Except.ok (Val.obj [("batchResults", Val.arr (runBatchList tbl subs))])

/-- The `batch` handler's loop over `params.commands`: a sub-command whose
type has a handler contributes one entry (success or caught failure); one
without a handler is passed over with no entry. -/
def runBatchList (tbl : HandlerTable) : List CmdBody → List Val
  | [] => []
  | c :: rest =>
    if subHasHandler tbl c then mkEntry tbl c :: runBatchList tbl rest
    else runBatchList tbl rest

/-- One batch result entry: `{type, success: true, result}` on success,
`{type, success: false, error}` when the sub-command's handler throws. -/
def mkEntry (tbl : HandlerTable) (c : CmdBody) : Val :=
  match runOne tbl c with
  | Except.ok v =>
    Val.obj [("type", Val.str (subType c)), ("success", Val.boolV true), ("result", v)]
  | Except.error e =>
    Val.obj [("type", Val.str (subType c)), ("success", Val.boolV false), ("error", Val.str e)]
end

/-- Executor-local state: the `executingCommands` set, the log of dispatch
starts (handler invocations begun, in order), the completion reports POSTed
back (id, payload, time), and the pending eviction timers (id, fire time). -/
structure ExecState where
  executing : List String
  dispatches : List String
  reports : List (String × Except String Val × Nat)
  timers : List (String × Nat)

/-- Fresh executor state (`new Set()`, nothing dispatched or reported). -/
def ExecState.init : ExecState :=
  { executing := [], dispatches := [], reports := [], timers := [] }

/-- Process one polled command at time `t`: skip entirely if its id is in the
in-flight set; otherwise add the id to the set, dispatch it, report the
outcome (`{result}` or `{error}`), and schedule eviction at `t + 5000`. -/
def pollStep (tbl : HandlerTable) (t : Nat) (s : ExecState) (c : PolledCmd) :
    ExecState :=
  if c.id ∈ s.executing then s
  else
    { executing := c.id :: s.executing
      dispatches := s.dispatches ++ [c.id]
      reports := s.reports ++ [(c.id, runOne tbl c.body, t)]
      timers := s.timers ++ [(c.id, t + 5000)] }

/-- One poll cycle: the `for (const cmd of data.commands)` loop. -/
def pollCycle (tbl : HandlerTable) (t : Nat) (s : ExecState)
    (cmds : List PolledCmd) : ExecState :=
  cmds.foldl (pollStep tbl t) s

/-- A scheduled eviction timer `(id, te)` fires at current time `t ≥ te`:
`executingCommands.delete(id)` and the timer is consumed.  Anything else
leaves the state unchanged. -/
def fireTimer (s : ExecState) (id : String) (te t : Nat) : ExecState :=
  if (id, te) ∈ s.timers ∧ te ≤ t then
    { s with
        executing := s.executing.filter (fun x => !(x == id))
        timers := s.timers.erase (id, te) }
  else s

/-- The executor's observable events: a poll cycle at time `t`, or a scheduled
timer `(id, te)` firing at time `t`. -/
inductive ExecEvent where
  | poll (t : Nat) (cmds : List PolledCmd)
  | fire (id : String) (te t : Nat)

/-- One executor step. -/
def execStep (tbl : HandlerTable) (s : ExecState) : ExecEvent → ExecState
  | ExecEvent.poll t cmds => pollCycle tbl t s cmds
  | ExecEvent.fire id te t => fireTimer s id te t

/-- Timer invariant: every pending eviction timer was scheduled exactly
5000 ms after a completion report for the same id. -/
def timerInv (s : ExecState) : Prop :=
  ∀ p ∈ s.timers, ∃ pay tr, (p.1, pay, tr) ∈ s.reports ∧ p.2 = tr + 5000

/-- Fold of `queueCommand` over a list of specs with their oracle pairs. -/
def enqueueAll (q : CommandQueue) (items : List (CommandSpec × Nat × String)) :
    CommandQueue :=
  items.foldl (fun acc i => (queueCommand acc i.1 i.2.1 i.2.2).2) q

/-- A concrete handler table for witnesses: only `create_page` is present,
and it succeeds. -/
def tbl0 : HandlerTable :=
  fun ty => if ty = "create_page" then some (fun _ => Except.ok (Val.str "ok")) else none

/-- A concrete handler table for witnesses: `create_page` succeeds and
`delete_page` throws. -/
def tbl1 : HandlerTable :=
  fun ty =>
    if ty = "create_page" then some (fun _ => Except.ok (Val.str "ok"))
    else if ty = "delete_page" then some (fun _ => Except.error "Page not found")
    else none

/-- A concrete pending command for witnesses. -/
def cmd0 : DesignCommand :=
  { id := "cmd_1_r", type := some "create_page", params := Val.nullV
    status := Status.pending, result := none, error := none
    createdAt := 1, completedAt := none }

/-- A concrete already-completed command for witnesses. -/
def cmdDone : DesignCommand :=
  { id := "cmd_2_s", type := some "create_frame", params := Val.nullV
    status := Status.completed, result := some (Val.str "r0"), error := none
    createdAt := 2, completedAt := some 3 }

/-! ## Helper lemmas -/

theorem updateFirst_append (p : α → Bool) (f : α → α) :
    ∀ (l1 : List α) (c : α) (l2 : List α), (∀ x ∈ l1, p x = false) → p c = true →
      updateFirst p f (l1 ++ c :: l2) = l1 ++ f c :: l2 := by
  intro l1
  induction l1 with
  | nil => intro c l2 _ hc; simp [updateFirst, hc]
  | cons a rest ih =>
    intro c l2 hl hc
    have ha : p a = false := hl a (by simp)
    simp only [List.cons_append, updateFirst, ha]
    simp only [Bool.false_eq_true, if_false, List.cons.injEq, true_and]
    exact ih c l2 (fun x hx => hl x (by simp [hx])) hc

theorem completeCommand_not_found (q : CommandQueue) (id : String)
    (r : Option Val) (e : Option String) (now : Nat)
    (h : ∀ c ∈ q.commands, c.id ≠ id) :
    completeCommand q id r e now = (false, q) := by
  have hany : (q.commands.any (fun c => c.id == id)) = false := by
    simp only [List.any_eq_false]
    intro c hc
    simp [h c hc]
  simp [completeCommand, hany]

theorem completeCommand_found (q : CommandQueue) (id : String)
    (r : Option Val) (e : Option String) (now : Nat)
    (l1 l2 : List DesignCommand) (c : DesignCommand)
    (hq : q.commands = l1 ++ c :: l2) (hl1 : ∀ x ∈ l1, x.id ≠ id)
    (hc : c.id = id) :
    completeCommand q id r e now =
      (true,
        { commands := l1 ++
            { c with
                status := if errTruthy e then Status.failed else Status.completed
                result := r, error := e, completedAt := some now } :: l2
          fileKey := q.fileKey }) := by
  have hany : (q.commands.any (fun x => x.id == id)) = true := by
    rw [hq]
    simp only [List.any_eq_true]
    exact ⟨c, by simp, by simp [hc]⟩
  have hup := updateFirst_append (fun x => x.id == id)
    (fun x =>
      { x with
          status := if errTruthy e then Status.failed else Status.completed
          result := r, error := e, completedAt := some now })
    l1 c l2 (fun x hx => by simp [hl1 x hx]) (by simp [hc])
  rw [hq] at hany
  simp only [completeCommand, hq, hany, if_true, hup]

theorem queueCommand_snd_commands (q : CommandQueue) (spec : CommandSpec)
    (now : Nat) (rand : String) :
    ((queueCommand q spec now rand).2).commands
      = q.commands ++ [(queueCommand q spec now rand).1] := rfl

theorem queueCommand_snd_fileKey (q : CommandQueue) (spec : CommandSpec)
    (now : Nat) (rand : String) :
    ((queueCommand q spec now rand).2).fileKey = q.fileKey := rfl

theorem queueCommand_fst_status (q : CommandQueue) (spec : CommandSpec)
    (now : Nat) (rand : String) :
    ((queueCommand q spec now rand).1).status = Status.pending := rfl

theorem queueBatchGo_snd_commands (items : List (CommandSpec × Nat × String)) :
    ∀ q : CommandQueue,
      ((queueBatchGo q items).2).commands = q.commands ++ (queueBatchGo q items).1 := by
  induction items with
  | nil => intro q; simp [queueBatchGo]
  | cons i rest ih =>
    intro q
    obtain ⟨spec, now, rand⟩ := i
    simp only [queueBatchGo]
    rw [ih]
    simp [queueCommand]

theorem queueBatchGo_snd_fileKey (items : List (CommandSpec × Nat × String)) :
    ∀ q : CommandQueue, ((queueBatchGo q items).2).fileKey = q.fileKey := by
  induction items with
  | nil => intro q; simp [queueBatchGo]
  | cons i rest ih =>
    intro q
    obtain ⟨spec, now, rand⟩ := i
    simp only [queueBatchGo]
    rw [ih]
    rfl

theorem queueBatchGo_fst_spec (items : List (CommandSpec × Nat × String)) :
    ∀ q : CommandQueue,
      ((queueBatchGo q items).1).map (fun c => (c.type, c.params))
        = items.map (fun i => (i.1.type, i.1.params)) := by
  induction items with
  | nil => intro q; simp [queueBatchGo]
  | cons i rest ih =>
    intro q
    obtain ⟨spec, now, rand⟩ := i
    simp only [queueBatchGo, List.map_cons]
    rw [ih]
    rfl

theorem queueBatchGo_fst_pending (items : List (CommandSpec × Nat × String)) :
    ∀ q : CommandQueue, ∀ c ∈ (queueBatchGo q items).1, c.status = Status.pending := by
  induction items with
  | nil => intro q c hc; simp [queueBatchGo] at hc
  | cons i rest ih =>
    intro q c hc
    obtain ⟨spec, now, rand⟩ := i
    simp only [queueBatchGo, List.mem_cons] at hc
    rcases hc with h | h
    · subst h; rfl
    · exact ih _ c h

/-! ## Claim theorems -/

/-- C3 (FIFO visibility ordering): `queueCommand` appends to the stored
sequence; `queueBatch fileKey items` sets the file key and appends the new
commands in exactly the given order, each carrying its spec's type and params
and status `pending`; consequently `listPending()` of the new state is the old
pending list followed by the freshly enqueued batch as a contiguous block —
after `enqueueBatch(fileKey, [A,B,C])` the pending view ends with the stored
`[A,B,C]` in order. -/
theorem queueBatch_fifo_order (q : CommandQueue) (fk : String)
    (items : List (CommandSpec × Nat × String)) (spec : CommandSpec)
    (now : Nat) (rand : String) :
    ((queueCommand q spec now rand).2).commands
        = q.commands ++ [(queueCommand q spec now rand).1] ∧
    ((queueBatch q fk items).2).commands = q.commands ++ (queueBatch q fk items).1 ∧
    ((queueBatch q fk items).2).fileKey = some fk ∧
    ((queueBatch q fk items).1).map (fun c => (c.type, c.params))
        = items.map (fun i => (i.1.type, i.1.params)) ∧
    (∀ c ∈ (queueBatch q fk items).1, c.status = Status.pending) ∧
    getPendingCommands (queueBatch q fk items).2
        = getPendingCommands q ++ (queueBatch q fk items).1 := by
  refine ⟨rfl, queueBatchGo_snd_commands items _, ?_, queueBatchGo_fst_spec items _,
    queueBatchGo_fst_pending items _, ?_⟩
  · rw [queueBatch, queueBatchGo_snd_fileKey]
  · have hc := queueBatchGo_snd_commands items
      { q with fileKey := some fk }
    have hp := queueBatchGo_fst_pending items { q with fileKey := some fk }
    unfold getPendingCommands queueBatch
    rw [hc, List.filter_append]
    congr 1
    exact List.filter_eq_self.mpr (fun c hcmem => by
      simp [hp c hcmem])

/-- C3 witness: instantiate the ordering theorem on a concrete two-command
batch and check the pending view. -/
theorem queueBatch_fifo_order_witness :
    (∀ c ∈ (queueBatch { commands := [], fileKey := none } "file1"
        [({ type := some "create_page", params := Val.nullV }, 5, "r1"),
         ({ type := some "create_frame", params := Val.nullV }, 6, "r2")]).1,
      c.status = Status.pending) ∧
    getPendingCommands (queueBatch { commands := [], fileKey := none } "file1"
        [({ type := some "create_page", params := Val.nullV }, 5, "r1"),
         ({ type := some "create_frame", params := Val.nullV }, 6, "r2")]).2
      = getPendingCommands { commands := [], fileKey := none }
        ++ (queueBatch { commands := [], fileKey := none } "file1"
        [({ type := some "create_page", params := Val.nullV }, 5, "r1"),
         ({ type := some "create_frame", params := Val.nullV }, 6, "r2")]).1 := by
  have h := queueBatch_fifo_order { commands := [], fileKey := none } "file1"
    [({ type := some "create_page", params := Val.nullV }, 5, "r1"),
     ({ type := some "create_frame", params := Val.nullV }, 6, "r2")]
    { type := some "create_page", params := Val.nullV } 5 "r1"
  exact ⟨h.2.2.2.2.1, h.2.2.2.2.2⟩

/-- C8: at the JS runtime, `queueCommand` performs no validation: a command
spec whose `type` field is missing (`undefined`) is spread into a new command
record and appended to the queue as `pending` — it is silently accepted, not
rejected at enqueue time.  (The TypeScript signature only excludes this
statically; the claim and spec require an enqueue-time rejection, which the
code does not perform.) -/
theorem queueCommand_accepts_missing_type :
    ((queueCommand { commands := [], fileKey := none }
        { type := none, params := Val.nullV } 1000 "abc123def").2).commands.map
      (fun c => (c.type, c.status)) = [(none, Status.pending)] := rfl

/-- C2 (re-completing a terminal command): if the first command matching `id`
is already terminal (`completed` or `failed`), a second `complete` call still
returns `true` and does not throw; it overwrites that command's `result`,
`error` and `completedAt` and recomputes the terminal status from the error
argument (`error ? 'failed' : 'completed'`, JS truthiness), leaving the
command in a well-defined terminal state. -/
theorem completeCommand_reterminal_overwrite (q : CommandQueue) (id : String)
    (r : Option Val) (e : Option String) (now : Nat)
    (l1 l2 : List DesignCommand) (c : DesignCommand)
    (hq : q.commands = l1 ++ c :: l2) (hl1 : ∀ x ∈ l1, x.id ≠ id)
    (hc : c.id = id)
    (hterm : c.status = Status.completed ∨ c.status = Status.failed) :
    completeCommand q id r e now =
      (true,
        { commands := l1 ++
            { c with
                status := if errTruthy e then Status.failed else Status.completed
                result := r, error := e, completedAt := some now } :: l2
          fileKey := q.fileKey }) ∧
    ((if errTruthy e then Status.failed else Status.completed) = Status.completed ∨
      (if errTruthy e then Status.failed else Status.completed) = Status.failed) := by
  refine ⟨completeCommand_found q id r e now l1 l2 c hq hl1 hc, ?_⟩
  cases errTruthy e <;> simp

/-- C2 witness: re-completing the already-completed `cmdDone` with a new
result returns `true` and overwrites its result and completion time. -/
theorem completeCommand_reterminal_overwrite_witness :
    completeCommand { commands := [cmdDone], fileKey := none } "cmd_2_s"
        (some (Val.str "new")) none 9 =
      (true,
        { commands := [{ cmdDone with
            status := Status.completed, result := some (Val.str "new")
            error := none, completedAt := some 9 }]
          fileKey := none }) := by
  have h := completeCommand_reterminal_overwrite
    { commands := [cmdDone], fileKey := none } "cmd_2_s"
    (some (Val.str "new")) none 9 [] [] cmdDone rfl (by simp) rfl (Or.inl rfl)
  exact h.1

/-- C5 (unknown-id completion): completing an id not present in the queue
returns `false` and leaves the whole queue (commands and fileKey) unchanged;
the relay's `POST /commands/{id}/complete` route answers 404 `{success:false}`
in that case, 200 `{success:true}` when the id is found, and 400
`{error:'Invalid JSON'}` with no state change when the body fails to parse. -/
theorem relay_complete_unknown_id
    (parse : String → Option (Option Val × Option String)) (now : Nat)
    (q : CommandQueue) (id : String) (r : Option Val) (e : Option String)
    (raw : String) :
    ((∀ c ∈ q.commands, c.id ≠ id) → completeCommand q id r e now = (false, q)) ∧
    ((∀ c ∈ q.commands, c.id ≠ id) →
      ∀ d, (if raw = "" then some (none, none) else parse raw) = some d →
        handleRequest parse now (Req.postComplete id raw) q
          = ((404, Resp.successFlag false), q)) ∧
    (∀ d, (if raw = "" then some (none, none) else parse raw) = some d →
      (q.commands.any (fun c => c.id == id)) = true →
        handleRequest parse now (Req.postComplete id raw) q
          = ((200, Resp.successFlag true), (completeCommand q id d.1 d.2 now).2)) ∧
    (raw ≠ "" → parse raw = none →
      handleRequest parse now (Req.postComplete id raw) q
        = ((400, Resp.invalidJson), q)) := by
  refine ⟨fun h => completeCommand_not_found q id r e now h, ?_, ?_, ?_⟩
  · intro h d hd
    have hcc := completeCommand_not_found q id d.1 d.2 now h
    simp [handleRequest, hd, hcc]
  · intro d hd hany
    have h1 : (completeCommand q id d.1 d.2 now).1 = true := by
      simp [completeCommand, hany]
    simp [handleRequest, hd, h1]
  · intro h1 h2
    simp [handleRequest, if_neg h1, h2]

/-- C5 witness: concrete instances of all four branches — unknown id on an
empty queue (false / 404), a found id (200), and a malformed body (400). -/
theorem relay_complete_unknown_id_witness :
    completeCommand { commands := [], fileKey := none } "zz" none none 7
      = (false, { commands := [], fileKey := none }) ∧
    handleRequest (fun _ => none) 7 (Req.postComplete "zz" "")
        { commands := [], fileKey := none }
      = ((404, Resp.successFlag false), { commands := [], fileKey := none }) ∧
    handleRequest (fun _ => none) 7 (Req.postComplete "cmd_1_r" "")
        { commands := [cmd0], fileKey := none }
      = ((200, Resp.successFlag true),
          (completeCommand { commands := [cmd0], fileKey := none }
            "cmd_1_r" none none 7).2) ∧
    handleRequest (fun _ => none) 7 (Req.postComplete "zz" "oops")
        { commands := [], fileKey := none }
      = ((400, Resp.invalidJson), { commands := [], fileKey := none }) := by
  have hA := relay_complete_unknown_id (fun _ => none) 7
    { commands := [], fileKey := none } "zz" none none ""
  have hB := relay_complete_unknown_id (fun _ => none) 7
    { commands := [], fileKey := none } "zz" none none "oops"
  have hC := relay_complete_unknown_id (fun _ => none) 7
    { commands := [cmd0], fileKey := none } "cmd_1_r" none none ""
  refine ⟨hA.1 (by simp), hA.2.1 (by simp) (none, none) rfl, ?_, hB.2.2.2 (by simp) rfl⟩
  exact hC.2.2.1 (none, none) rfl rfl

/-- C10 (empty-body completion): for a queued command id, posting a completion
with an empty body is not rejected as malformed: the body is treated as `{}`,
`completeCommand` runs with `result` and `error` both absent, the command
becomes `completed` (no error present) with `completedAt` stamped and no
result payload, and the relay answers 200 `{success:true}`. -/
theorem relay_complete_empty_body
    (parse : String → Option (Option Val × Option String)) (now : Nat)
    (q : CommandQueue) (id : String) (l1 l2 : List DesignCommand)
    (c : DesignCommand) (hq : q.commands = l1 ++ c :: l2)
    (hl1 : ∀ x ∈ l1, x.id ≠ id) (hc : c.id = id) :
    handleRequest parse now (Req.postComplete id "") q
      = ((200, Resp.successFlag true),
          { commands := l1 ++
              { c with
                  status := Status.completed, result := none
                  error := none, completedAt := some now } :: l2
            fileKey := q.fileKey }) := by
  have hfound := completeCommand_found q id none none now l1 l2 c hq hl1 hc
  simp only [errTruthy, Bool.false_eq_true, if_false] at hfound
  simp [handleRequest, hfound]

/-- C10 witness: completing the pending `cmd0` with an empty body yields 200
and marks it completed with no result. -/
theorem relay_complete_empty_body_witness :
    handleRequest (fun _ => none) 9 (Req.postComplete "cmd_1_r" "")
        { commands := [cmd0], fileKey := none }
      = ((200, Resp.successFlag true),
          { commands := [{ cmd0 with
              status := Status.completed, result := none
              error := none, completedAt := some 9 }]
            fileKey := none }) := by
  exact relay_complete_empty_body (fun _ => none) 9
    { commands := [cmd0], fileKey := none } "cmd_1_r" [] [] cmd0 rfl (by simp) rfl

theorem runBatchList_eq_filter_map (tbl : HandlerTable) :
    ∀ subs : List CmdBody,
      runBatchList tbl subs = (subs.filter (subHasHandler tbl)).map (mkEntry tbl) := by
  intro subs
  induction subs with
  | nil => simp [runBatchList]
  | cons c rest ih =>
    by_cases h : subHasHandler tbl c
    · simp [runBatchList, List.filter_cons, h, ih]
    · simp only [Bool.not_eq_true] at h
      simp [runBatchList, List.filter_cons, h, ih]

/-- C6 counterexample: a `batch` whose single sub-command has an unknown type
produces an EMPTY `batchResults` list — there is no `{type, success, ...}`
entry for that sub-command at all, contradicting the claim that the batch
result aggregates an entry for each sub-command; the sub-command is skipped
silently (the batch loop guards on `handlers[cmd.type]` with no else). -/
theorem batch_skips_unknown_subcommand :
    runOne tbl0 (CmdBody.batch [CmdBody.prim "bogus" Val.nullV])
      = Except.ok (Val.obj [("batchResults", Val.arr [])]) ∧
    runBatchList tbl0 [CmdBody.prim "bogus" Val.nullV] = [] ∧
    [CmdBody.prim "bogus" Val.nullV].length = 1 := by
  refine ⟨?_, ?_, rfl⟩
  · simp [runOne, runBatchList, subHasHandler, tbl0]
  · simp [runBatchList, subHasHandler, tbl0]

/-- C6 (amended): every sub-command whose type has a handler is executed with
its failure caught independently (each contributes its own `{type, success,
result|error}` entry, in order, and a failing sub-command does not abort the
rest), sub-commands with unknown types are silently skipped with no entry,
and the batch handler itself always returns a result (never throws), so upon
the executor's `{result}` report the relay marks the batch command
`completed` — never `failed` — even if every executed sub-command failed. -/
theorem batch_partial_failure_policy (tbl : HandlerTable) (subs : List CmdBody)
    (q : CommandQueue) (id : String) (v : Val) (now : Nat)
    (l1 l2 : List DesignCommand) (c : DesignCommand) :
    runOne tbl (CmdBody.batch subs)
      = Except.ok (Val.obj [("batchResults", Val.arr (runBatchList tbl subs))]) ∧
    runBatchList tbl subs = (subs.filter (subHasHandler tbl)).map (mkEntry tbl) ∧
    (∀ (cb : CmdBody) (w : Val), runOne tbl cb = Except.ok w →
      mkEntry tbl cb = Val.obj
        [("type", Val.str (subType cb)), ("success", Val.boolV true), ("result", w)]) ∧
    (∀ (cb : CmdBody) (err : String), runOne tbl cb = Except.error err →
      mkEntry tbl cb = Val.obj
        [("type", Val.str (subType cb)), ("success", Val.boolV false), ("error", Val.str err)]) ∧
    (q.commands = l1 ++ c :: l2 → (∀ x ∈ l1, x.id ≠ id) → c.id = id →
      completeCommand q id (some v) none now =
        (true,
          { commands := l1 ++
              { c with
                  status := Status.completed, result := some v
                  error := none, completedAt := some now } :: l2
            fileKey := q.fileKey })) := by
  refine ⟨by simp [runOne], runBatchList_eq_filter_map tbl subs, ?_, ?_, ?_⟩
  · intro cb w h; simp [mkEntry, h]
  · intro cb err h; simp [mkEntry, h]
  · intro hq hl1 hc
    have h := completeCommand_found q id (some v) none now l1 l2 c hq hl1 hc
    simpa [errTruthy] using h

/-- C6 witness: a three-sub-command batch against `tbl1` — one success, one
caught failure, one unknown type — yields exactly the two entries in order
(the failure does not abort the rest, the unknown sub-command has no entry),
and completing a queued command with that result marks it `completed`. -/
theorem batch_partial_failure_policy_witness :
    runBatchList tbl1
        [CmdBody.prim "create_page" Val.nullV, CmdBody.prim "delete_page" Val.nullV,
         CmdBody.prim "bogus" Val.nullV]
      = ([CmdBody.prim "create_page" Val.nullV, CmdBody.prim "delete_page" Val.nullV,
          CmdBody.prim "bogus" Val.nullV].filter (subHasHandler tbl1)).map (mkEntry tbl1) ∧
    completeCommand { commands := [cmd0], fileKey := none } "cmd_1_r"
        (some (Val.obj [("batchResults", Val.arr [])])) none 4 =
      (true,
        { commands := [{ cmd0 with
            status := Status.completed
            result := some (Val.obj [("batchResults", Val.arr [])])
            error := none, completedAt := some 4 }]
          fileKey := none }) := by
  have h := batch_partial_failure_policy tbl1
    [CmdBody.prim "create_page" Val.nullV, CmdBody.prim "delete_page" Val.nullV,
     CmdBody.prim "bogus" Val.nullV]
    { commands := [cmd0], fileKey := none } "cmd_1_r"
    (Val.obj [("batchResults", Val.arr [])]) 4 [] [] cmd0
  exact ⟨h.2.1, h.2.2.2.2 rfl (by simp) rfl⟩

/-- C7 (unknown command type at the executor): a polled top-level command not
currently in the in-flight set whose type has no handler is dispatched into
the try block, throws, is caught, and a failure report with message
`Unknown command type: <type>` is appended to the POSTed completions — and in
general every non-skipped polled command produces exactly one report; nothing
is silently dropped. -/
theorem pollCommands_unknown_type_reported (tbl : HandlerTable) (t : Nat)
    (s : ExecState) (id ty : String) (p : Val) (c : PolledCmd)
    (hnot : id ∉ s.executing) (hty : tbl ty = none)
    (hc : c.id ∉ s.executing) :
    (pollStep tbl t s (PolledCmd.mk id (CmdBody.prim ty p))).reports
      = s.reports ++ [(id, Except.error ("Unknown command type: " ++ ty), t)] ∧
    (pollStep tbl t s c).reports = s.reports ++ [(c.id, runOne tbl c.body, t)] := by
  constructor
  · simp [pollStep, hnot, runOne, hty]
  · simp [pollStep, hc]

/-- C7 witness: a fresh executor polling a command of unknown type `bogus`
reports a failure with the exact message. -/
theorem pollCommands_unknown_type_reported_witness :
    (pollStep tbl0 0 ExecState.init (PolledCmd.mk "cX" (CmdBody.prim "bogus" Val.nullV))).reports
      = [("cX", Except.error "Unknown command type: bogus", 0)] := by
  have h := pollCommands_unknown_type_reported tbl0 0 ExecState.init "cX" "bogus"
    Val.nullV (PolledCmd.mk "cX" (CmdBody.prim "bogus" Val.nullV))
    (by simp [ExecState.init]) (by simp [tbl0]) (by simp [ExecState.init])
  simpa [ExecState.init] using h.1

theorem updateFirst_map (p : α → Bool) (f : α → α) (g : α → β)
    (hg : ∀ x, g (f x) = g x) : ∀ l : List α, (updateFirst p f l).map g = l.map g := by
  intro l
  induction l with
  | nil => rfl
  | cons a rest ih =>
    by_cases h : p a = true
    · simp [updateFirst, h, hg]
    · simp only [Bool.not_eq_true] at h
      simp [updateFirst, h, ih]

theorem completeCommand_preserves_ids (q : CommandQueue) (id : String)
    (r : Option Val) (e : Option String) (now : Nat) :
    (((completeCommand q id r e now).2).commands).map DesignCommand.id
      = (q.commands).map DesignCommand.id := by
  by_cases h : (q.commands.any (fun c => c.id == id)) = true
  · simp only [completeCommand, h, if_true]
    exact updateFirst_map (fun c => c.id == id)
      (fun c =>
        { c with
            status := if errTruthy e then Status.failed else Status.completed
            result := r, error := e, completedAt := some now })
      DesignCommand.id (fun x => rfl) q.commands
  · simp only [Bool.not_eq_true] at h
    simp [completeCommand, h]

/-- C9 (pending-command retention): `GET /commands` always answers 200 with
exactly `{fileKey, commands: listPending()}` and does not change the queue at
all (so serving a pending command leaves its status, result, error and
timestamps untouched); every relay request other than `DELETE /commands`
preserves the stored command sequence's ids — no command, pending ones
included, is ever removed; and enqueueing only appends. -/
theorem relay_pending_retention
    (parse : String → Option (Option Val × Option String)) (now : Nat)
    (q : CommandQueue) (req : Req) (spec : CommandSpec) (tq : Nat)
    (rand : String) :
    handleRequest parse now Req.getCommands q
      = ((200, Resp.pendingList q.fileKey (getPendingCommands q)), q) ∧
    (req ≠ Req.deleteCmds →
      (((handleRequest parse now req q).2).commands).map DesignCommand.id
        = (q.commands).map DesignCommand.id) ∧
    (((queueCommand q spec tq rand).2).commands).map DesignCommand.id
      = (q.commands).map DesignCommand.id ++ [mkId tq rand] := by
  refine ⟨rfl, ?_, by simp [queueCommand]⟩
  intro hreq
  cases req with
  | getCommands => rfl
  | getAll => rfl
  | postComplete id raw =>
    simp only [handleRequest]
    cases hd : (if raw = "" then some ((none : Option Val), (none : Option String))
        else parse raw) with
    | none => rfl
    | some d => simpa using completeCommand_preserves_ids q id d.1 d.2 now
  | deleteCmds => exact absurd rfl hreq
  | health => rfl
  | corsPreflight => rfl
  | unmatched => rfl

/-- C9 witness: completing `cmd0` over the relay keeps its id in the stored
sequence (the command is updated in place, never removed). -/
theorem relay_pending_retention_witness :
    handleRequest (fun _ => none) 7 Req.getCommands
        { commands := [cmd0], fileKey := none }
      = ((200, Resp.pendingList none
          (getPendingCommands { commands := [cmd0], fileKey := none })),
         { commands := [cmd0], fileKey := none }) ∧
    (((handleRequest (fun _ => none) 7 (Req.postComplete "cmd_1_r" "")
        { commands := [cmd0], fileKey := none }).2).commands).map DesignCommand.id
      = ["cmd_1_r"] := by
  have h := relay_pending_retention (fun _ => none) 7
    { commands := [cmd0], fileKey := none } (Req.postComplete "cmd_1_r" "")
    { type := none, params := Val.nullV } 0 "r"
  exact ⟨h.1, h.2.1 (by simp)⟩

theorem mkId_suffix_inj (t1 t2 : Nat) (s1 s2 : String)
    (hlen : s1.length = s2.length) (h : mkId t1 s1 = mkId t2 s2) : s1 = s2 := by
  unfold mkId at h
  have hd := congrArg String.data h
  simp only [String.data_append] at hd
  have hlen2 : s1.data.length = s2.data.length := hlen
  have hsplit := List.append_inj' hd hlen2
  exact String.ext hsplit.2

theorem enqueueAll_ids (items : List (CommandSpec × Nat × String)) :
    ∀ q : CommandQueue,
      (((enqueueAll q items).commands).map DesignCommand.id)
        = (q.commands).map DesignCommand.id
          ++ items.map (fun i => mkId i.2.1 i.2.2) := by
  induction items with
  | nil => intro q; simp [enqueueAll]
  | cons i rest ih =>
    intro q
    have hstep : enqueueAll q (i :: rest)
        = enqueueAll (queueCommand q i.1 i.2.1 i.2.2).2 rest := rfl
    rw [hstep, ih]
    simp [queueCommand]

/-- C4 counterexample: `Math.random()` may return the same value twice; with
the random suffix repeating inside one millisecond (`Date.now()` equal), two
`queueCommand` calls store two commands with the very same id — the claimed
unconditional uniqueness fails on the code. -/
theorem queueCommand_id_collision :
    (((enqueueAll { commands := [], fileKey := none }
        [({ type := some "create_page", params := Val.nullV }, 1000, "abc123def"),
         ({ type := some "create_frame", params := Val.nullV }, 1000, "abc123def")]).commands).map
      DesignCommand.id)
      = ["cmd_1000_abc123def", "cmd_1000_abc123def"] ∧
    ¬ (((enqueueAll { commands := [], fileKey := none }
        [({ type := some "create_page", params := Val.nullV }, 1000, "abc123def"),
         ({ type := some "create_frame", params := Val.nullV }, 1000, "abc123def")]).commands).map
      DesignCommand.id).Nodup := by
  constructor
  · rfl
  · intro hnd
    rw [show (((enqueueAll { commands := [], fileKey := none }
        [({ type := some "create_page", params := Val.nullV }, 1000, "abc123def"),
         ({ type := some "create_frame", params := Val.nullV }, 1000, "abc123def")]).commands).map
      DesignCommand.id) = ["cmd_1000_abc123def", "cmd_1000_abc123def"] from rfl] at hnd
    simp at hnd

/-- C4 (amended): the id is `cmd_<timestamp>_<suffix>`; two ids collide
exactly when both the millisecond timestamp and the random suffix coincide.
Hence uniqueness is conditional: for any enqueue sequence in which the drawn
9-character random suffixes are pairwise distinct — even with all calls in
the same millisecond — all stored command ids are distinct.  `Math.random`
does not guarantee distinct suffixes, so the code's uniqueness is
probabilistic, not absolute. -/
theorem queueCommand_ids_nodup_of_distinct_suffixes
    (items : List (CommandSpec × Nat × String))
    (hnd : (items.map (fun i => i.2.2)).Nodup)
    (hlen : ∀ i ∈ items, (i.2.2).length = 9) :
    (((enqueueAll { commands := [], fileKey := none } items).commands).map
      DesignCommand.id).Nodup := by
  rw [enqueueAll_ids]
  simp only [List.map_nil, List.nil_append]
  induction items with
  | nil => simp
  | cons i rest ih =>
    simp only [List.map_cons, List.nodup_cons] at hnd ⊢
    refine ⟨?_, ih hnd.2 (fun j hj => hlen j (by simp [hj]))⟩
    intro hmem
    rcases List.mem_map.mp hmem with ⟨j, hj, hjid⟩
    have hs : j.2.2 = i.2.2 :=
      mkId_suffix_inj j.2.1 i.2.1 j.2.2 i.2.2
        ((hlen j (by simp [hj])).trans (hlen i (by simp)).symm) hjid
    exact hnd.1 (hs ▸ List.mem_map_of_mem (fun x => x.2.2) hj)

/-- C4 witness: two same-millisecond enqueues with distinct 9-character
suffixes receive distinct ids. -/
theorem queueCommand_ids_nodup_witness :
    (((enqueueAll { commands := [], fileKey := none }
        [({ type := some "create_page", params := Val.nullV }, 1000, "abc123def"),
         ({ type := some "create_frame", params := Val.nullV }, 1000, "zzz999888")]).commands).map
      DesignCommand.id).Nodup := by
  exact queueCommand_ids_nodup_of_distinct_suffixes
    [({ type := some "create_page", params := Val.nullV }, 1000, "abc123def"),
     ({ type := some "create_frame", params := Val.nullV }, 1000, "zzz999888")]
    (by simp) (by intro i hi; fin_cases hi <;> rfl)

theorem pollStep_executing_mono (tbl : HandlerTable) (t : Nat) (s : ExecState)
    (c : PolledCmd) (id : String) (h : id ∈ s.executing) :
    id ∈ (pollStep tbl t s c).executing := by
  by_cases hin : c.id ∈ s.executing
  · simpa [pollStep, hin] using h
  · simp [pollStep, hin]
    exact Or.inr h

theorem pollCycle_executing_mono (tbl : HandlerTable) (t : Nat)
    (cmds : List PolledCmd) :
    ∀ (s : ExecState) (id : String), id ∈ s.executing →
      id ∈ (pollCycle tbl t s cmds).executing := by
  induction cmds with
  | nil => intro s id h; exact h
  | cons c rest ih =>
    intro s id h
    exact ih (pollStep tbl t s c) id (pollStep_executing_mono tbl t s c id h)

theorem pollCycle_count_of_executing (tbl : HandlerTable) (t : Nat)
    (cmds : List PolledCmd) :
    ∀ (s : ExecState) (id : String), id ∈ s.executing →
      ((pollCycle tbl t s cmds).dispatches).count id = (s.dispatches).count id := by
  induction cmds with
  | nil => intro s id _; rfl
  | cons c rest ih =>
    intro s id h
    simp only [pollCycle, List.foldl_cons]
    by_cases hin : c.id ∈ s.executing
    · have hstep : pollStep tbl t s c = s := by simp [pollStep, hin]
      rw [hstep]
      exact ih s id h
    · have hne : c.id ≠ id := fun he => hin (he ▸ h)
      have hrec := ih (pollStep tbl t s c) id
        (pollStep_executing_mono tbl t s c id h)
      simp only [pollCycle] at hrec
      rw [hrec]
      simp [pollStep, hin, List.count_append, List.count_cons, hne]

theorem pollStep_notin (tbl : HandlerTable) (t : Nat) (s : ExecState)
    (c : PolledCmd) (id : String) (h : id ∉ s.executing) (hne : c.id ≠ id) :
    id ∉ (pollStep tbl t s c).executing ∧
      ((pollStep tbl t s c).dispatches).count id = (s.dispatches).count id := by
  by_cases hin : c.id ∈ s.executing
  · simp [pollStep, hin, h]
  · constructor
    · simp [pollStep, hin]
      exact ⟨fun he => hne he.symm, h⟩
    · simp [pollStep, hin, List.count_append, List.count_cons, hne]

theorem pollCycle_first_dispatch (tbl : HandlerTable) (t : Nat)
    (cmds : List PolledCmd) :
    ∀ (s : ExecState) (id : String), id ∉ s.executing →
      id ∈ cmds.map PolledCmd.id →
      ((pollCycle tbl t s cmds).dispatches).count id = (s.dispatches).count id + 1 ∧
      id ∈ (pollCycle tbl t s cmds).executing := by
  induction cmds with
  | nil => intro s id _ hmem; simp at hmem
  | cons c rest ih =>
    intro s id h hmem
    simp only [pollCycle, List.foldl_cons]
    by_cases hc : c.id = id
    · have hnot : c.id ∉ s.executing := fun hcin => h (hc ▸ hcin)
      have hstep : pollStep tbl t s c =
          { executing := c.id :: s.executing
            dispatches := s.dispatches ++ [c.id]
            reports := s.reports ++ [(c.id, runOne tbl c.body, t)]
            timers := s.timers ++ [(c.id, t + 5000)] } := by
        simp [pollStep, hnot]
      have hidin : id ∈ (pollStep tbl t s c).executing := by
        rw [hstep]; simp [hc]
      constructor
      · have hcnt := pollCycle_count_of_executing tbl t rest (pollStep tbl t s c) id hidin
        simp only [pollCycle] at hcnt
        rw [hcnt, hstep]
        simp [List.count_append, List.count_cons, hc]
      · have hm := pollCycle_executing_mono tbl t rest (pollStep tbl t s c) id hidin
        simpa only [pollCycle] using hm
    · have hmem2 : id ∈ rest.map PolledCmd.id := by
        rcases List.mem_map.mp hmem with ⟨d, hd, hdid⟩
        rcases List.mem_cons.mp hd with h1 | h1
        · exact absurd (h1 ▸ hdid) hc
        · exact List.mem_map.mpr ⟨d, h1, hdid⟩
      have hstep := pollStep_notin tbl t s c id h hc
      have hrec := ih (pollStep tbl t s c) id hstep.1 hmem2
      simp only [pollCycle] at hrec
      exact ⟨by rw [hrec.1, hstep.2], hrec.2⟩

theorem timerInv_pollStep (tbl : HandlerTable) (t : Nat) (s : ExecState)
    (c : PolledCmd) (hinv : timerInv s) : timerInv (pollStep tbl t s c) := by
  by_cases hin : c.id ∈ s.executing
  · simpa [pollStep, hin] using hinv
  · have hstep : pollStep tbl t s c =
        { executing := c.id :: s.executing
          dispatches := s.dispatches ++ [c.id]
          reports := s.reports ++ [(c.id, runOne tbl c.body, t)]
          timers := s.timers ++ [(c.id, t + 5000)] } := by
      simp [pollStep, hin]
    rw [hstep]
    intro p hp
    simp only [List.mem_append, List.mem_singleton] at hp
    rcases hp with hp | hp
    · rcases hinv p hp with ⟨pay, tr, hmem, hte⟩
      exact ⟨pay, tr, List.mem_append_left _ hmem, hte⟩
    · subst hp
      exact ⟨runOne tbl c.body, t, List.mem_append_right _ (by simp), rfl⟩

theorem timerInv_pollCycle (tbl : HandlerTable) (t : Nat)
    (cmds : List PolledCmd) :
    ∀ s : ExecState, timerInv s → timerInv (pollCycle tbl t s cmds) := by
  induction cmds with
  | nil => intro s h; exact h
  | cons c rest ih =>
    intro s h
    exact ih (pollStep tbl t s c) (timerInv_pollStep tbl t s c h)

theorem timerInv_fireTimer (s : ExecState) (id : String) (te t : Nat)
    (hinv : timerInv s) : timerInv (fireTimer s id te t) := by
  by_cases hcond : (id, te) ∈ s.timers ∧ te ≤ t
  · have hstep : fireTimer s id te t =
        { s with
            executing := s.executing.filter (fun x => !(x == id))
            timers := s.timers.erase (id, te) } := by
      simp [fireTimer, hcond]
    rw [hstep]
    intro p hp
    exact hinv p (List.mem_of_mem_erase hp)
  · simpa [fireTimer, hcond] using hinv

/-- C1 (executor at-most-once dispatch under re-poll): (1) a polled command
whose id is already in the `executingCommands` set is skipped entirely — the
state, and in particular the dispatch log, is unchanged; (2) across any two
consecutive poll cycles starting with the id not in flight, a command id that
occurs in the first response (and possibly again in the second) is dispatched
exactly once more, and its id is still in the in-flight set afterwards;
(3)–(5) the timer invariant holds initially, is preserved by every executor
step, and an id can leave the in-flight set only through a `fire` event for a
scheduled eviction timer, which exists only 5000 ms after a completion report
for that id was POSTed — so eviction happens only after the completion
report, following the 5-second grace delay. -/
theorem pollCommands_at_most_once (tbl : HandlerTable) (t t1 t2 : Nat)
    (s : ExecState) (c : PolledCmd) (cmds1 cmds2 : List PolledCmd)
    (id : String) (e : ExecEvent) :
    (c.id ∈ s.executing → pollStep tbl t s c = s) ∧
    (id ∉ s.executing → id ∈ cmds1.map PolledCmd.id →
      ((pollCycle tbl t2 (pollCycle tbl t1 s cmds1) cmds2).dispatches).count id
          = (s.dispatches).count id + 1 ∧
        id ∈ (pollCycle tbl t2 (pollCycle tbl t1 s cmds1) cmds2).executing) ∧
    timerInv ExecState.init ∧
    (timerInv s → timerInv (execStep tbl s e)) ∧
    (timerInv s → id ∈ s.executing → id ∉ (execStep tbl s e).executing →
      ∃ te tf, e = ExecEvent.fire id te tf ∧ te ≤ tf ∧
        ∃ pay tr, (id, pay, tr) ∈ s.reports ∧ te = tr + 5000) := by
  refine ⟨fun h => by simp [pollStep, h], ?_, ?_, ?_, ?_⟩
  · intro h hmem
    have h1 := pollCycle_first_dispatch tbl t1 cmds1 s id h hmem
    constructor
    · rw [pollCycle_count_of_executing tbl t2 cmds2 _ id h1.2]
      exact h1.1
    · exact pollCycle_executing_mono tbl t2 cmds2 _ id h1.2
  · intro p hp; simp [ExecState.init] at hp
  · intro hinv
    cases e with
    | poll tp cmdsp => exact timerInv_pollCycle tbl tp cmdsp s hinv
    | fire idf te tf => exact timerInv_fireTimer s idf te tf hinv
  · intro hinv hin hout
    cases e with
    | poll tp cmdsp =>
      exact absurd (pollCycle_executing_mono tbl tp cmdsp s id hin) hout
    | fire idf te tf =>
      by_cases hcond : (idf, te) ∈ s.timers ∧ te ≤ tf
      · have hfil : (execStep tbl s (ExecEvent.fire idf te tf)).executing
            = s.executing.filter (fun x => !(x == idf)) := by
          simp [execStep, fireTimer, hcond]
        have hide : id = idf := by
          by_contra hne
          apply hout
          rw [hfil]
          simp only [List.mem_filter]
          exact ⟨hin, by simp [hne]⟩
        subst hide
        rcases hinv (id, te) hcond.1 with ⟨pay, tr, hmem, hte⟩
        exact ⟨te, tf, rfl, hcond.2, pay, tr, hmem, hte⟩
      · exact absurd (by simpa [execStep, fireTimer, hcond] using hin) hout

/-- C1 witness: with id `cX` already in flight a re-polled `cX` is skipped;
from a fresh executor two overlapping polls both containing `cX` dispatch it
exactly once; and the `fire cX 5000 6000` event that evicts `cX` evidences a
completion report at time 0 with the 5000 ms grace delay. -/
theorem pollCommands_at_most_once_witness :
    pollStep tbl0 3
        { executing := ["cX"], dispatches := [], reports := [], timers := [] }
        (PolledCmd.mk "cX" (CmdBody.prim "create_page" Val.nullV))
      = { executing := ["cX"], dispatches := [], reports := [], timers := [] } ∧
    ((pollCycle tbl0 1000
        (pollCycle tbl0 0 ExecState.init
          [PolledCmd.mk "cX" (CmdBody.prim "create_page" Val.nullV)])
        [PolledCmd.mk "cX" (CmdBody.prim "create_page" Val.nullV)]).dispatches).count "cX"
      = (ExecState.init.dispatches).count "cX" + 1 ∧
    (∃ te tf, (ExecEvent.fire "cX" 5000 6000 : ExecEvent) = ExecEvent.fire "cX" te tf ∧
      te ≤ tf ∧
      ∃ pay tr,
        ("cX", pay, tr) ∈ (pollCycle tbl0 0 ExecState.init
          [PolledCmd.mk "cX" (CmdBody.prim "create_page" Val.nullV)]).reports ∧
        te = tr + 5000) := by
  have hA := pollCommands_at_most_once tbl0 3 0 1000
    { executing := ["cX"], dispatches := [], reports := [], timers := [] }
    (PolledCmd.mk "cX" (CmdBody.prim "create_page" Val.nullV)) [] [] "cX"
    (ExecEvent.poll 0 [])
  have hB := pollCommands_at_most_once tbl0 0 0 1000 ExecState.init
    (PolledCmd.mk "cX" (CmdBody.prim "create_page" Val.nullV))
    [PolledCmd.mk "cX" (CmdBody.prim "create_page" Val.nullV)]
    [PolledCmd.mk "cX" (CmdBody.prim "create_page" Val.nullV)] "cX"
    (ExecEvent.poll 0 [PolledCmd.mk "cX" (CmdBody.prim "create_page" Val.nullV)])
  have hInv : timerInv (pollCycle tbl0 0 ExecState.init
      [PolledCmd.mk "cX" (CmdBody.prim "create_page" Val.nullV)]) :=
    hB.2.2.2.1 hB.2.2.1
  have hC := pollCommands_at_most_once tbl0 0 0 0
    (pollCycle tbl0 0 ExecState.init
      [PolledCmd.mk "cX" (CmdBody.prim "create_page" Val.nullV)])
    (PolledCmd.mk "cX" (CmdBody.prim "create_page" Val.nullV)) [] [] "cX"
    (ExecEvent.fire "cX" 5000 6000)
  refine ⟨hA.1 (by simp), (hB.2.1 (by simp [ExecState.init]) (by simp)).1, ?_⟩
  refine hC.2.2.2.2 hInv ?_ ?_
  · simp [pollCycle, pollStep, ExecState.init]
  · simp [execStep, pollCycle, pollStep, ExecState.init, fireTimer]

end FigmaBridge
